import Mathlib

/-
Shallow embedding of the submission coordination core of the kin-python
client (src/agora/client/client.py): the RetryConfig defaults, the
nonce-refresh sign-and-submit coordinator, the single-payment error
handling, and the batch earn processor.

External collaborators (transport, builder, signing) are abstracted as
oracles, as the specification directs.  Python exceptions are modelled by
an explicit sum type: `Exn.agora` covers all subclasses of the library's
`Error` base class, while `Exn.valueError` and `Exn.indexError` model the
Python built-in exceptions that the library code can raise and that are
not subclasses of `Error`.
-/

namespace KinClient

/-- Errors of the library's `Error` class hierarchy (agora.error), used both
as raised exceptions and as transaction/operation error values carried
inside a `SubmitTransactionResult`.  Modelled from the spec: the error
module itself is not part of the sources, only its use sites are; the spec
describes the taxonomy (bad-nonce, transaction-level errors, invoice errors
already-paid / wrong-destination / sku-not-found, generic internal errors). -/
inductive Err where
  | badNonce
  | txFailed (code : Nat)
  | internal (msg : String)
  | alreadyPaid
  | wrongDestination
  | skuNotFound
  deriving DecidableEq

/-- A Python exception: either an instance of the library's `Error` class
(caught by `except Error`), or a built-in exception such as `ValueError`
or `IndexError` that is not a subclass of `Error`. -/
inductive Exn where
  | agora (e : Err)
  | valueError (msg : String)
  | indexError
  deriving DecidableEq

/-- Reason codes of invoice errors (agora.error.InvoiceErrorReason). -/
inductive InvoiceErrorReason where
  | alreadyPaid
  | wrongDestination
  | skuNotFound
  | unknown (code : Nat)
  deriving DecidableEq

/-- One invoice-specific error returned by the transport. -/
structure InvoiceError where
  reason : InvoiceErrorReason
  deriving DecidableEq

/-- The transaction-level error of a submission result: an optional
whole-transaction error and a list of per-operation errors. -/
structure TransactionError where
  tx_error : Option Err
  op_errors : List Err
  deriving DecidableEq

/-- Result of submitting one transaction over the transport
(agora.client.internal.SubmitTransactionResult). -/
structure SubmitTransactionResult where
  tx_hash : Nat
  tx_error : Option TransactionError
  invoice_errors : List InvoiceError
  deriving DecidableEq

/-- Invoices are opaque to the coordination core; only identity matters. -/
abbrev Invoice := Nat

/-- One earn of a batch (agora.model.earn.Earn). -/
structure Earn where
  destination : Nat
  quarks : Int
  invoice : Option Invoice
  deriving DecidableEq

/-- Per-earn outcome (agora.model.result.EarnResult): absence of both the
hash and the error means the earn was never attempted. -/
structure EarnResult where
  earn : Earn
  tx_hash : Option Nat
  error : Option Err
  deriving DecidableEq

/-- Aggregate outcome of submit_earn_batch (agora.model.result.BatchEarnResult). -/
structure BatchEarnResult where
  succeeded : List EarnResult
  failed : List EarnResult
  deriving DecidableEq

/-- Python truthiness of an optional string: `None` and the empty string
are falsy. -/
def strTruthy (m : Option String) : Bool := m.getD "" ≠ ""

/-- Structural helper for `partition`, recursing on a fuel bounded by the
length of the list. -/
def partitionFuel (size : Nat) : Nat → List α → List (List α)
  | 0, _ => []
  | _, [] => []
  | fuel + 1, x :: xs => (x :: xs).take size :: partitionFuel size fuel ((x :: xs).drop size)

/-- Modelled from the spec: agora.utils.partition is not part of the
sources; the spec says it splits the list into fixed-size sub-batches
preserving order, the last sub-batch possibly smaller. -/
def partition (l : List α) (size : Nat) : List (List α) :=
  partitionFuel size l.length l

/-- Outcome of one call to the transaction submission coordinator
(Client._sign_and_submit_builder) as seen by the batch earn processor:
either a result is returned, or an exception is raised. -/
inductive SubmitOutcome where
  | ok (r : SubmitTransactionResult)
  | exn (e : Exn)

/-- Client._submit_earn_batch_tx: submits a single transaction for one
sub-batch of earns.  The builder construction, memo encoding and signing
are external collaborators; the coordinator call is abstracted by `oracle`
applied to the running submission counter `k`.  Raises ValueError if the
sub-batch exceeds 100 earns (before any submission), and raises the
internal Error about unexpected invoice errors when the result carries
invoice errors. -/
def submitEarnBatchTx (oracle : Nat → SubmitOutcome) (k : Nat) (batch : List Earn) :
    (Except Exn SubmitTransactionResult) × Nat :=
  if batch.length > 100 then
    (Except.error (Exn.valueError "cannot send more than 100 earns"), k)
  else
    match oracle k with
    | SubmitOutcome.exn e => (Except.error e, k + 1)
    | SubmitOutcome.ok r =>
      if r.invoice_errors = [] then (Except.ok r, k + 1)
      else (Except.error (Exn.agora (Err.internal "unexpected invoice errors present")), k + 1)

/-- The per-sub-batch loop of Client.submit_earn_batch: processes the
sub-batches in order, accumulating the succeeded and failed EarnResult
lists.  The `except Error` clause catches exactly the `Exn.agora`
exceptions of a sub-batch submission; a `break` is modelled by returning
without recursing; any other exception aborts the whole loop.  The second
component counts coordinator submissions. -/
def processBatches (oracle : Nat → SubmitOutcome) (k : Nat) :
    List (List Earn) → (Except Exn (List EarnResult × List EarnResult)) × Nat
  | [] => (Except.ok ([], []), k)
  | batch :: rest =>
    match submitEarnBatchTx oracle k batch with
    | (Except.error (Exn.agora e), k') =>
      (Except.ok ([], batch.map fun earn => EarnResult.mk earn none (some e)), k')
    | (Except.error (Exn.valueError m), k') => (Except.error (Exn.valueError m), k')
    | (Except.error Exn.indexError, k') => (Except.error Exn.indexError, k')
    | (Except.ok r, k') =>
      match r.tx_error with
      | none =>
        match processBatches oracle k' rest with
        | (Except.ok (s, f), k2) =>
          (Except.ok ((batch.map fun earn => EarnResult.mk earn (some r.tx_hash) none) ++ s, f), k2)
        | (Except.error e, k2) => (Except.error e, k2)
      | some te =>
        if te.op_errors = [] then
          (Except.ok ([], batch.map fun earn => EarnResult.mk earn (some r.tx_hash) te.tx_error), k')
        else if te.op_errors.length < batch.length then
          (Except.error Exn.indexError, k')
        else
          (Except.ok ([],
            List.zipWith (fun earn e => EarnResult.mk earn (some r.tx_hash) (some e))
              batch te.op_errors), k')

/-- Client.submit_earn_batch: validation, the sub-batch loop, and the
trailing never-attempted earns.  Returns the outcome together with the
number of coordinator submissions made. -/
def submit_earn_batch (app_index : Int) (memo : Option String)
    (oracle : Nat → SubmitOutcome) (earns : List Earn) :
    (Except Exn BatchEarnResult) × Nat :=
  let invoices := earns.filterMap fun e => e.invoice
  if invoices ≠ [] ∧ app_index ≤ 0 then
    (Except.error (Exn.valueError "cannot submit a payment with an invoice without an app index"), 0)
  else if invoices ≠ [] ∧ invoices.length ≠ earns.length then
    (Except.error (Exn.valueError "Either all or none of the earns must contain invoices"), 0)
  else if invoices ≠ [] ∧ strTruthy memo then
    (Except.error (Exn.valueError "Cannot use both text memo and invoices"), 0)
  else
    match processBatches oracle 0 (partition earns 100) with
    | (Except.ok (s, f), k) =>
      (Except.ok (BatchEarnResult.mk s
        (f ++ (earns.drop (s.length + f.length)).map fun e => EarnResult.mk e none none)), k)
    | (Except.error e, k) => (Except.error e, k)

/-- The negation of the three fail-fast validation conditions of
Client.submit_earn_batch: with this satisfied the sub-batch loop runs. -/
def validationOk (app_index : Int) (memo : Option String) (earns : List Earn) : Prop :=
  ¬((earns.filterMap fun e => e.invoice) ≠ [] ∧ app_index ≤ 0) ∧
  ¬((earns.filterMap fun e => e.invoice) ≠ [] ∧
      (earns.filterMap fun e => e.invoice).length ≠ earns.length) ∧
  ¬((earns.filterMap fun e => e.invoice) ≠ [] ∧ strTruthy memo)

/-- Modelled from the spec: the retry strategies of agora.retry used by the
coordinator's inner loop (the retry module is not part of the sources).
RetriableErrorsStrategy continues only if the raised error is in the
allowlist; LimitStrategy stops once the failure count reaches the
configured maximum number of attempts. -/
inductive Strategy where
  | retriableErrors (allow : List Err)
  | limit (maxAttempts : Nat)

/-- Modelled from the spec: a strategy's decision after the `failures`-th
consecutive failure (counted from 1) with error `e`. -/
def Strategy.shouldRetry : Strategy → Nat → Err → Bool
  | Strategy.retriableErrors allow, _, e => allow.contains e
  | Strategy.limit m, failures, _ => failures < m

/-- Modelled from the spec: the retry executor of agora.retry.  Runs the
state-passing operation `f`; after each failure all strategies are
evaluated and the loop continues only if every strategy permits it.  The
fuel is an upper bound on the number of retries; the coordinator always
includes a limit strategy whose bound is below the fuel, so the fuel-out
branch is never reached there. -/
def retryLoop (strategies : List Strategy) (f : σ → (Except Err α) × σ) :
    Nat → Nat → σ → (Except Err α) × σ
  | 0, _, s => f s
  | fuel + 1, failures, s =>
    match f s with
    | (Except.ok a, s2) => (Except.ok a, s2)
    | (Except.error e, s2) =>
      if strategies.all (fun st => st.shouldRetry (failures + 1) e) then
        retryLoop strategies f fuel (failures + 1) s2
      else (Except.error e, s2)

/-- Whether a submission result carries a bad-nonce whole-transaction
error, i.e. `result.tx_error and isinstance(result.tx_error.tx_error,
BadNonceError)` in Client._sign_and_submit_builder. -/
def resultBadNonce (r : SubmitTransactionResult) : Bool :=
  match r.tx_error with
  | some te => te.tx_error = some Err.badNonce
  | none => false

/-- One iteration of the closure `_sign_and_submit` inside
Client._sign_and_submit_builder.  The state is the pair (offset, calls):
the mutable sequence offset captured by the closure, and an added counter
of transport submissions.  The builder is re-signed with sequence
`fetched sequence + offset`; the transport's response to that sequence is
`transport (seq + offset)`.  On a bad-nonce whole-transaction error the
offset is incremented and the bad-nonce error re-raised; any other result
is returned as-is. -/
def signAndSubmitOnce (transport : Nat → SubmitTransactionResult) (seq : Nat) :
    Nat × Nat → (Except Err SubmitTransactionResult) × (Nat × Nat)
  | (offset, calls) =>
    let r := transport (seq + offset)
    match r.tx_error with
    | some te =>
      if te.tx_error = some Err.badNonce then (Except.error Err.badNonce, (offset + 1, calls + 1))
      else (Except.ok r, (offset, calls + 1))
    | none => (Except.ok r, (offset, calls + 1))

/-- The strategy set `_nonce_retry_strategies` built in Client.__init__:
retry only on BadNonceError, at most max_nonce_refreshes + 1 attempts. -/
def nonceRetryStrategies (maxNonceRefreshes : Nat) : List Strategy :=
  [Strategy.retriableErrors [Err.badNonce], Strategy.limit (maxNonceRefreshes + 1)]

/-- Client._sign_and_submit_builder: fetch the sequence number once
(abstracted as `seq`), then run the sign-and-submit closure under the
nonce retry strategies, starting with offset 1 and zero transport calls. -/
def signAndSubmitBuilder (maxNonceRefreshes : Nat) (transport : Nat → SubmitTransactionResult)
    (seq : Nat) : (Except Err SubmitTransactionResult) × (Nat × Nat) :=
  retryLoop (nonceRetryStrategies maxNonceRefreshes) (signAndSubmitOnce transport seq)
    (maxNonceRefreshes + 1) 0 (1, 0)

/-- RetryConfig with its effective field values (client.py RetryConfig).
Delays are rationals: the Python floats 0.5 and 10 are exact. -/
structure RetryConfig where
  max_retries : Int
  min_delay : Rat
  max_delay : Rat
  max_nonce_refreshes : Int
  deriving DecidableEq

/-- RetryConfig.__init__: each argument that is absent or negative falls
back to its default (max_retries 5, min_delay 0.5, max_delay 10,
max_nonce_refreshes 3); non-negative supplied values are kept. -/
def RetryConfig.ofArgs (max_retries : Option Int) (min_delay : Option Rat)
    (max_delay : Option Rat) (max_nonce_refreshes : Option Int) : RetryConfig :=
  RetryConfig.mk
    (match max_retries with
     | some v => if v ≥ 0 then v else 5
     | none => 5)
    (match min_delay with
     | some v => if v ≥ 0 then v else (1 : Rat) / 2
     | none => (1 : Rat) / 2)
    (match max_delay with
     | some v => if v ≥ 0 then v else 10
     | none => 10)
    (match max_nonce_refreshes with
     | some v => if v ≥ 0 then v else 3
     | none => 3)

/-- A single payment (agora.model.payment.Payment); the identity and
amount fields do not influence the coordination logic modelled here but
are kept for shape. -/
structure Payment where
  destination : Nat
  quarks : Int
  channel : Option Nat
  invoice : Option Invoice
  memo : Option String
  tx_type : Nat
  deriving DecidableEq

/-- The memo attached to the transaction built by Client.submit_payment. -/
inductive MemoUsed where
  | text (s : String)
  | agoraMemo (tx_type : Nat) (app_index : Int) (fk : Option (List Invoice))
  | noMemo
  deriving DecidableEq

/-- What Client.submit_payment hands to the coordinator: the memo attached
to the builder and the invoice list passed to submit_transaction. -/
structure Submission where
  memoUsed : MemoUsed
  invoice_list : Option (List Invoice)
  deriving DecidableEq

/-- The tail of Client.submit_payment handling invoice errors of the
submission result: exactly one invoice error is expected, mapped from its
reason code; any other count is an internal error. -/
def handleInvoiceErrors (r : SubmitTransactionResult) (sub : Submission) :
    (Except Exn Nat) × Option Submission :=
  match r.invoice_errors with
  | [] => (Except.ok r.tx_hash, some sub)
  | [ie] =>
    match ie.reason with
    | InvoiceErrorReason.alreadyPaid => (Except.error (Exn.agora Err.alreadyPaid), some sub)
    | InvoiceErrorReason.wrongDestination =>
      (Except.error (Exn.agora Err.wrongDestination), some sub)
    | InvoiceErrorReason.skuNotFound => (Except.error (Exn.agora Err.skuNotFound), some sub)
    | InvoiceErrorReason.unknown _ =>
      (Except.error (Exn.agora (Err.internal "unknown invoice error")), some sub)
  | _ :: _ :: _ =>
    (Except.error (Exn.agora (Err.internal "invalid number of invoice errors, expected 0 or 1")),
      some sub)

/-- The result error handling at the end of Client.submit_payment (the
blocks on result.tx_error and result.invoice_errors): a non-empty
per-operation error list takes precedence and must have exactly one entry;
otherwise the whole-transaction error is raised if present; otherwise the
invoice errors are inspected. -/
def handleSubmitResult (r : SubmitTransactionResult) (sub : Submission) :
    (Except Exn Nat) × Option Submission :=
  match r.tx_error with
  | some te =>
    match te.op_errors with
    | [] =>
      match te.tx_error with
      | some e => (Except.error (Exn.agora e), some sub)
      | none => handleInvoiceErrors r sub
    | [e] => (Except.error (Exn.agora e), some sub)
    | _ :: _ :: _ =>
      (Except.error
        (Exn.agora (Err.internal "invalid number of operation errors, expected 0 or 1")),
        some sub)
  | none => handleInvoiceErrors r sub

/-- Client.submit_payment: validation, memo/invoice-list construction, one
coordinator call (abstracted by `oracle`, the submission result), and the
result error handling.  The second component records the submission made,
or `none` if the call was rejected before any network call. -/
def submit_payment (app_index : Int) (p : Payment) (oracle : SubmitTransactionResult) :
    (Except Exn Nat) × Option Submission :=
  if p.invoice.isSome ∧ app_index ≤ 0 then
    (Except.error (Exn.valueError "cannot submit a payment with an invoice without an app index"),
      none)
  else
    let invoice_list : Option (List Invoice) :=
      if strTruthy p.memo then none
      else if app_index > 0 then
        match p.invoice with
        | some inv => some [inv]
        | none => none
      else none
    let memoUsed : MemoUsed :=
      if strTruthy p.memo then MemoUsed.text (p.memo.getD "")
      else if app_index > 0 then MemoUsed.agoraMemo p.tx_type app_index invoice_list
      else MemoUsed.noMemo
    handleSubmitResult oracle (Submission.mk memoUsed invoice_list)

/-- Concrete earns and oracles used by the witness and counterexample
theorems below. -/
def wEarn1 : Earn := Earn.mk 1 10 none

def wEarn2 : Earn := Earn.mk 2 20 none

def wEarnInv : Earn := Earn.mk 3 30 (some 5)

def wOracleOk : Nat → SubmitOutcome := fun _ =>
  SubmitOutcome.ok (SubmitTransactionResult.mk 7 none [])

def wOracleInvErr : Nat → SubmitOutcome := fun _ =>
  SubmitOutcome.ok
    (SubmitTransactionResult.mk 7 none [InvoiceError.mk InvoiceErrorReason.alreadyPaid])

def wOracleOpErr : Nat → SubmitOutcome := fun _ =>
  SubmitOutcome.ok (SubmitTransactionResult.mk 9
    (some (TransactionError.mk none [Err.txFailed 1, Err.txFailed 2])) [])

def wOracleRaise : Nat → SubmitOutcome := fun _ => SubmitOutcome.exn (Exn.agora (Err.txFailed 3))

def wBadNonceResult : SubmitTransactionResult :=
  SubmitTransactionResult.mk 0 (some (TransactionError.mk (some Err.badNonce) [])) []

def wCleanResult : SubmitTransactionResult := SubmitTransactionResult.mk 42 none []

def wTransport : Nat → SubmitTransactionResult := fun s =>
  if s ≤ 12 then wBadNonceResult else wCleanResult

def wTransportAllBad : Nat → SubmitTransactionResult := fun _ => wBadNonceResult

def wPaymentBoth : Payment := Payment.mk 4 50 none (some 6) (some "hello") 2

def wOpErrResult : SubmitTransactionResult :=
  SubmitTransactionResult.mk 11
    (some (TransactionError.mk (some (Err.txFailed 8)) [Err.txFailed 5]))
    [InvoiceError.mk InvoiceErrorReason.skuNotFound]

theorem partitionFuel_join (size : Nat) (hs : 0 < size) :
    ∀ (fuel : Nat) (l : List α), l.length ≤ fuel → (partitionFuel size fuel l).flatten = l := by
  intro fuel
  induction fuel with
  | zero =>
    intro l hl
    have hnil : l = [] := List.eq_nil_of_length_eq_zero (Nat.le_zero.mp hl)
    simp [hnil, partitionFuel]
  | succ n ih =>
    intro l hl
    cases l with
    | nil => simp [partitionFuel]
    | cons x xs =>
      rw [partitionFuel]
      rw [List.flatten]
      rw [ih ((x :: xs).drop size)]
      · exact List.take_append_drop size (x :: xs)
      · rw [List.length_drop]
        simp only [List.length_cons] at hl ⊢
        omega

theorem partition_join (size : Nat) (hs : 0 < size) (l : List α) :
    (partition l size).flatten = l :=
  partitionFuel_join size hs l.length l (Nat.le_refl _)

theorem partitionFuel_mem_length (size : Nat) :
    ∀ (fuel : Nat) (l : List α) (c : List α), c ∈ partitionFuel size fuel l →
      c.length ≤ size := by
  intro fuel
  induction fuel with
  | zero => intro l c hc; simp [partitionFuel] at hc
  | succ n ih =>
    intro l c hc
    cases l with
    | nil => simp [partitionFuel] at hc
    | cons x xs =>
      rw [partitionFuel] at hc
      rcases List.mem_cons.mp hc with h | h
      · subst h
        rw [List.length_take]
        exact Nat.min_le_left _ _
      · exact ih _ _ h

theorem partition_mem_length (size : Nat) (l : List α) (c : List α)
    (hc : c ∈ partition l size) : c.length ≤ size :=
  partitionFuel_mem_length size l.length l c hc

theorem partitionFuel_fuel_irrel (size : Nat) (hs : 0 < size) :
    ∀ (f1 f2 : Nat) (t : List α), t.length ≤ f1 → t.length ≤ f2 →
      partitionFuel size f1 t = partitionFuel size f2 t := by
  intro f1
  induction f1 with
  | zero =>
    intro f2 t h1 h2
    have hnil : t = [] := List.eq_nil_of_length_eq_zero (Nat.le_zero.mp h1)
    subst hnil
    cases f2 <;> rfl
  | succ k ihk =>
    intro f2 t h1 h2
    cases t with
    | nil => cases f2 <;> rfl
    | cons y ys =>
      cases f2 with
      | zero => simp at h2
      | succ k2 =>
        rw [partitionFuel, partitionFuel]
        congr 1
        apply ihk
        · rw [List.length_drop]; simp only [List.length_cons] at h1 ⊢; omega
        · rw [List.length_drop]; simp only [List.length_cons] at h2 ⊢; omega

theorem partition_cons (size : Nat) (hs : 0 < size) (l : List α) (hne : l ≠ []) :
    partition l size = l.take size :: partition (l.drop size) size := by
  cases l with
  | nil => exact absurd rfl hne
  | cons x xs =>
    show partitionFuel size (xs.length + 1) (x :: xs) = _
    rw [partitionFuel]
    congr 1
    unfold partition
    apply partitionFuel_fuel_irrel size hs
    · rw [List.length_drop]
      simp only [List.length_cons]
      omega
    · exact Nat.le_refl _

theorem map_earn_of_map (x : Option Nat) (y : Option Err) (l : List Earn) :
    ((l.map fun e => EarnResult.mk e x y).map EarnResult.earn) = l := by
  induction l with
  | nil => rfl
  | cons a t ih => simp [ih]

theorem map_earn_of_zipWith (hash : Nat) :
    ∀ (l1 : List Earn) (l2 : List Err), l1.length ≤ l2.length →
      ((List.zipWith (fun earn e => EarnResult.mk earn (some hash) (some e)) l1 l2).map
        EarnResult.earn) = l1 := by
  intro l1
  induction l1 with
  | nil => intro l2 _; rfl
  | cons a t ih =>
    intro l2 hl
    cases l2 with
    | nil => simp at hl
    | cons b t2 =>
      simp only [List.length_cons, Nat.add_le_add_iff_right] at hl
      simp [ih t2 hl]

/-- The loop invariant of Client.submit_earn_batch: whenever the sub-batch
loop finishes without an uncaught exception, the earns of the accumulated
succeeded and failed lists form, in order, a prefix of the concatenation of
the sub-batches. -/
theorem processBatches_ok_append (oracle : Nat → SubmitOutcome) :
    ∀ (batches : List (List Earn)) (k k2 : Nat) (s f : List EarnResult),
      processBatches oracle k batches = (Except.ok (s, f), k2) →
      ∃ t, s.map EarnResult.earn ++ (f.map EarnResult.earn ++ t) = batches.flatten := by
  intro batches
  induction batches with
  | nil =>
    intro k k2 s f h
    rw [processBatches] at h
    simp only [Prod.mk.injEq, Except.ok.injEq] at h
    obtain ⟨⟨hs, hf⟩, _⟩ := h
    exact ⟨[], by simp [← hs, ← hf]⟩
  | cons batch rest ih =>
    intro k k2 s f h
    rw [processBatches] at h
    split at h
    · -- sub-batch submission raised an agora Error: caught, break
      rename_i e k' heq
      simp only [Prod.mk.injEq, Except.ok.injEq] at h
      obtain ⟨⟨hs, hf⟩, -⟩ := h
      refine ⟨rest.flatten, ?_⟩
      rw [← hs, ← hf]
      simp only [List.map_nil, List.nil_append, List.flatten_cons, map_earn_of_map]
    · -- ValueError propagates: contradiction with the ok hypothesis
      simp at h
    · -- IndexError propagates: contradiction with the ok hypothesis
      simp at h
    · -- submission returned a result
      rename_i r k' heq
      split at h
      · -- no transaction error: all earns of the sub-batch succeeded
        split at h
        · rename_i s2 f2 krec hrec
          simp only [Prod.mk.injEq, Except.ok.injEq] at h
          obtain ⟨⟨hs, hf⟩, -⟩ := h
          obtain ⟨t, ht⟩ := ih k' krec s2 f2 hrec
          refine ⟨t, ?_⟩
          rw [← hs, ← hf]
          simp only [List.map_append, map_earn_of_map, List.flatten_cons]
          rw [List.append_assoc, ht]
        · simp at h
      · -- transaction error present
        rename_i te hte
        split at h
        · -- whole-transaction error applied to every earn of the sub-batch
          simp only [Prod.mk.injEq, Except.ok.injEq] at h
          obtain ⟨⟨hs, hf⟩, -⟩ := h
          refine ⟨rest.flatten, ?_⟩
          rw [← hs, ← hf]
          simp only [List.map_nil, List.nil_append, List.flatten_cons, map_earn_of_map]
        · split at h
          · -- too few operation errors: IndexError, contradiction
            simp at h
          · -- positional mapping of the operation errors
            rename_i hop hlen
            simp only [Prod.mk.injEq, Except.ok.injEq] at h
            obtain ⟨⟨hs, hf⟩, -⟩ := h
            refine ⟨rest.flatten, ?_⟩
            rw [← hs, ← hf]
            simp only [List.map_nil, List.nil_append, List.flatten_cons]
            rw [map_earn_of_zipWith r.tx_hash batch te.op_errors (Nat.le_of_not_lt hlen)]

/-- C1: for every input list of K earns and every execution path of
submit_earn_batch that returns a BatchEarnResult (all sub-batches succeed,
a sub-batch fails with per-operation errors, a sub-batch fails with a
whole-transaction error, or a sub-batch submission raises an Error), the
result satisfies len(succeeded) + len(failed) = K, every input Earn appears
exactly once across the two lists, and input order is preserved within each
list: the succeeded earns followed by the failed earns are exactly the
input list in order. -/
theorem submit_earn_batch_partition_property (app_index : Int) (memo : Option String)
    (oracle : Nat → SubmitOutcome) (earns : List Earn) (r : BatchEarnResult) (k : Nat)
    (h : submit_earn_batch app_index memo oracle earns = (Except.ok r, k)) :
    r.succeeded.map EarnResult.earn ++ r.failed.map EarnResult.earn = earns ∧
    r.succeeded.length + r.failed.length = earns.length := by
  simp only [submit_earn_batch] at h
  split at h
  · simp at h
  · split at h
    · simp at h
    · split at h
      · simp at h
      · split at h
        · -- the sub-batch loop finished with accumulated lists s, f
          rename_i s f kk hrec
          simp only [Prod.mk.injEq, Except.ok.injEq] at h
          obtain ⟨hr, -⟩ := h
          obtain ⟨t, ht⟩ := processBatches_ok_append oracle (partition earns 100) 0 kk s f hrec
          rw [partition_join 100 (by norm_num)] at ht
          have h2 : (s.map EarnResult.earn ++ f.map EarnResult.earn) ++ t = earns := by
            rw [List.append_assoc]; exact ht
          have hdrop : earns.drop (s.length + f.length) = t := by
            have h3 : earns.drop (s.length + f.length)
                = ((s.map EarnResult.earn ++ f.map EarnResult.earn) ++ t).drop
                    ((s.map EarnResult.earn ++ f.map EarnResult.earn).length) := by
              rw [h2]
              congr 1
              simp
            rw [h3, List.drop_left]
          have hlen := congrArg List.length ht
          simp only [List.length_append, List.length_map] at hlen
          rw [← hr]
          constructor
          · simp only [List.map_append, map_earn_of_map, hdrop, ← List.append_assoc]
            exact h2
          · simp only [List.length_append, List.length_map, hdrop]
            omega
        · simp at h

/-- Witness for C1: two earns, both sub-batches succeed; the partition
property evaluated at a concrete run. -/
theorem submit_earn_batch_partition_property_witness :
    (BatchEarnResult.mk [EarnResult.mk wEarn1 (some 7) none, EarnResult.mk wEarn2 (some 7) none]
        []).succeeded.map EarnResult.earn ++
      (BatchEarnResult.mk [EarnResult.mk wEarn1 (some 7) none, EarnResult.mk wEarn2 (some 7) none]
        []).failed.map EarnResult.earn = [wEarn1, wEarn2] ∧
    (BatchEarnResult.mk [EarnResult.mk wEarn1 (some 7) none, EarnResult.mk wEarn2 (some 7) none]
        []).succeeded.length +
      (BatchEarnResult.mk [EarnResult.mk wEarn1 (some 7) none, EarnResult.mk wEarn2 (some 7) none]
        []).failed.length = [wEarn1, wEarn2].length :=
  submit_earn_batch_partition_property 1 none wOracleOk [wEarn1, wEarn2]
    (BatchEarnResult.mk [EarnResult.mk wEarn1 (some 7) none, EarnResult.mk wEarn2 (some 7) none]
      []) 1 (by rfl)

theorem drop_length_take (l : List α) (n : Nat) : l.drop (l.take n).length = l.drop n := by
  rw [List.length_take]
  rcases Nat.le_total n l.length with h | h
  · rw [Nat.min_eq_left h]
  · rw [Nat.min_eq_right h, List.drop_eq_nil_of_le (Nat.le_refl _),
      List.drop_eq_nil_of_le h]

/-- With the fail-fast validation satisfied, submit_earn_batch is the
sub-batch loop followed by the trailing never-attempted earns. -/
theorem submit_earn_batch_validation_pass (app_index : Int) (memo : Option String)
    (oracle : Nat → SubmitOutcome) (earns : List Earn)
    (hval : validationOk app_index memo earns) :
    submit_earn_batch app_index memo oracle earns
      = match processBatches oracle 0 (partition earns 100) with
        | (Except.ok (s, f), k) =>
          (Except.ok (BatchEarnResult.mk s
            (f ++ (earns.drop (s.length + f.length)).map fun e => EarnResult.mk e none none)), k)
        | (Except.error e, k) => (Except.error e, k) := by
  obtain ⟨h1, h2, h3⟩ := hval
  simp only [submit_earn_batch]
  rw [if_neg h1, if_neg h2, if_neg h3]

/-- C6: submit_earn_batch validates before any network call and raises a
ValueError if some but not all earns carry an invoice, or any invoice is
present while the app index is not configured, or both a free-text memo
and invoices are supplied; no submission attempt is made in these cases. -/
theorem submit_earn_batch_validation (app_index : Int) (memo : Option String)
    (oracle : Nat → SubmitOutcome) (earns : List Earn)
    (hinv : (earns.filterMap fun e => e.invoice) ≠ [])
    (hcond : app_index ≤ 0 ∨ (earns.filterMap fun e => e.invoice).length ≠ earns.length ∨
      strTruthy memo = true) :
    (∃ msg, (submit_earn_batch app_index memo oracle earns).1 = Except.error (Exn.valueError msg)) ∧
    (submit_earn_batch app_index memo oracle earns).2 = 0 := by
  simp only [submit_earn_batch]
  by_cases h1 : app_index ≤ 0
  · rw [if_pos ⟨hinv, h1⟩]
    exact ⟨⟨_, rfl⟩, rfl⟩
  · rw [if_neg (fun hc => h1 hc.2)]
    by_cases h2 : (earns.filterMap fun e => e.invoice).length ≠ earns.length
    · rw [if_pos ⟨hinv, h2⟩]
      exact ⟨⟨_, rfl⟩, rfl⟩
    · rw [if_neg (fun hc => h2 hc.2)]
      have h3 : strTruthy memo = true := by
        rcases hcond with hc | hc | hc
        · exact absurd hc h1
        · exact absurd hc h2
        · exact hc
      rw [if_pos ⟨hinv, h3⟩]
      exact ⟨⟨_, rfl⟩, rfl⟩

/-- Witness for C6: one earn with an invoice while the app index is 0. -/
theorem submit_earn_batch_validation_witness :
    (∃ msg, (submit_earn_batch 0 none wOracleOk [wEarnInv]).1
        = Except.error (Exn.valueError msg)) ∧
    (submit_earn_batch 0 none wOracleOk [wEarnInv]).2 = 0 :=
  submit_earn_batch_validation 0 none wOracleOk [wEarnInv] (by decide) (Or.inl (by decide))

/-- C3 counterexample: the transport returns an invoice error for an earn
batch, yet submit_earn_batch returns a BatchEarnResult (nothing is raised
past the boundary) and the internal error IS mapped onto the Earn. -/
theorem submit_earn_batch_invoice_errors_counterexample :
    (submit_earn_batch 1 none wOracleInvErr [wEarn1]).1
      = Except.ok (BatchEarnResult.mk []
          [EarnResult.mk wEarn1 none
            (some (Err.internal "unexpected invoice errors present"))]) := by rfl

/-- C3 amended: invoice errors on an earn-batch submission make
_submit_earn_batch_tx raise the internal Error, which the sub-batch loop
of submit_earn_batch catches like any other Error: every earn of the
current sub-batch is marked failed with that error, no further sub-batch
is processed, and nothing is raised past the BatchEarnResult boundary. -/
theorem submit_earn_batch_invoice_errors_caught (oracle : Nat → SubmitOutcome)
    (k : Nat) (batch : List Earn) (rest : List (List Earn)) (r : SubmitTransactionResult)
    (hlen : batch.length ≤ 100) (ho : oracle k = SubmitOutcome.ok r)
    (hie : r.invoice_errors ≠ []) :
    submitEarnBatchTx oracle k batch
        = (Except.error (Exn.agora (Err.internal "unexpected invoice errors present")), k + 1) ∧
    processBatches oracle k (batch :: rest)
        = (Except.ok ([], batch.map fun e => EarnResult.mk e none
            (some (Err.internal "unexpected invoice errors present"))), k + 1) := by
  have hg : ¬(batch.length > 100) := by omega
  have h1 : submitEarnBatchTx oracle k batch
      = (Except.error (Exn.agora (Err.internal "unexpected invoice errors present")), k + 1) := by
    simp only [submitEarnBatchTx, if_neg hg, ho, if_neg hie]
  refine ⟨h1, ?_⟩
  simp only [processBatches, h1]

/-- Witness for C3 amended: a one-earn sub-batch whose submission result
carries an invoice error. -/
theorem submit_earn_batch_invoice_errors_caught_witness :
    submitEarnBatchTx wOracleInvErr 0 [wEarn1]
        = (Except.error (Exn.agora (Err.internal "unexpected invoice errors present")), 1) ∧
    processBatches wOracleInvErr 0 [[wEarn1]]
        = (Except.ok ([], [wEarn1].map fun e => EarnResult.mk e none
            (some (Err.internal "unexpected invoice errors present"))), 1) :=
  submit_earn_batch_invoice_errors_caught wOracleInvErr 0 [wEarn1] []
    (SubmitTransactionResult.mk 7 none [InvoiceError.mk InvoiceErrorReason.alreadyPaid])
    (by decide) (by rfl) (by decide)

/-- C4 counterexample: a sub-batch of size 1 whose transaction error
carries 2 operation errors (count different from the sub-batch size) is
NOT treated as a fault: the result is a normal BatchEarnResult mapping
the earn to the operation error at its index, the extra error ignored. -/
theorem submit_earn_batch_op_mismatch_counterexample :
    (submit_earn_batch 1 none wOracleOpErr [wEarn1]).1
      = Except.ok (BatchEarnResult.mk []
          [EarnResult.mk wEarn1 (some 9) (some (Err.txFailed 1))]) := by rfl

/-- C4 amended: when a sub-batch submission result carries per-operation
errors, each operation error is mapped positionally onto the Earn at the
same index; if there are fewer operation errors than earns in the
sub-batch, an IndexError (not a library Error, hence never caught or
retried) aborts the loop, and submit_earn_batch propagates it so that no
BatchEarnResult is produced; if there are more, the extra operation errors
are silently ignored. -/
theorem submit_earn_batch_op_error_mapping (oracle : Nat → SubmitOutcome)
    (k : Nat) (batch : List Earn) (rest : List (List Earn)) (r : SubmitTransactionResult)
    (te : TransactionError) (hlen : batch.length ≤ 100) (ho : oracle k = SubmitOutcome.ok r)
    (hnoinv : r.invoice_errors = []) (hte : r.tx_error = some te)
    (hop : te.op_errors ≠ []) :
    (te.op_errors.length < batch.length →
      processBatches oracle k (batch :: rest) = (Except.error Exn.indexError, k + 1)) ∧
    (batch.length ≤ te.op_errors.length →
      processBatches oracle k (batch :: rest)
        = (Except.ok ([],
            List.zipWith (fun earn e => EarnResult.mk earn (some r.tx_hash) (some e))
              batch te.op_errors), k + 1)) ∧
    (∀ (app_index : Int) (memo : Option String) (earns : List Earn) (ex : Exn) (k2 : Nat),
      validationOk app_index memo earns →
      processBatches oracle 0 (partition earns 100) = (Except.error ex, k2) →
      submit_earn_batch app_index memo oracle earns = (Except.error ex, k2)) := by
  have hg : ¬(batch.length > 100) := by omega
  have h1 : submitEarnBatchTx oracle k batch = (Except.ok r, k + 1) := by
    simp only [submitEarnBatchTx, if_neg hg, ho, if_pos hnoinv]
  refine ⟨?_, ?_, ?_⟩
  · intro hshort
    simp only [processBatches, h1, hte, if_neg hop, if_pos hshort]
  · intro henough
    simp only [processBatches, h1, hte, if_neg hop, if_neg (Nat.not_lt.mpr henough)]
  · intro app_index memo earns ex k2 hval hproc
    simp only [submit_earn_batch_validation_pass app_index memo oracle earns hval, hproc]

/-- Witness for C4 amended: a one-earn sub-batch with two operation
errors takes the positional-mapping branch. -/
theorem submit_earn_batch_op_error_mapping_witness :
    processBatches wOracleOpErr 0 [[wEarn1]]
      = (Except.ok ([],
          List.zipWith (fun earn e => EarnResult.mk earn (some 9) (some e))
            [wEarn1] [Err.txFailed 1, Err.txFailed 2]), 1) :=
  (submit_earn_batch_op_error_mapping wOracleOpErr 0 [wEarn1] []
    (SubmitTransactionResult.mk 9
      (some (TransactionError.mk none [Err.txFailed 1, Err.txFailed 2])) [])
    (TransactionError.mk none [Err.txFailed 1, Err.txFailed 2])
    (by decide) (by rfl) (by rfl) (by rfl) (by decide)).2.1 (by decide)

/-- C10: during the sub-batch loop, only exceptions of the library's Error
class raised by a sub-batch submission are caught and turned into failed
EarnResults (the first sub-batch fails with the error, the remaining earns
are recorded as never attempted); any other exception propagates out of
submit_earn_batch and no BatchEarnResult is returned. -/
theorem submit_earn_batch_exception_catching (app_index : Int) (memo : Option String)
    (oracle : Nat → SubmitOutcome) (earns : List Earn) (e : Exn)
    (hval : validationOk app_index memo earns) (hne : earns ≠ [])
    (ho : oracle 0 = SubmitOutcome.exn e) :
    (∀ a, e = Exn.agora a →
      submit_earn_batch app_index memo oracle earns
        = (Except.ok (BatchEarnResult.mk []
            (((earns.take 100).map fun x => EarnResult.mk x none (some a)) ++
             ((earns.drop 100).map fun x => EarnResult.mk x none none))), 1)) ∧
    ((∀ a, e ≠ Exn.agora a) →
      submit_earn_batch app_index memo oracle earns = (Except.error e, 1)) := by
  have hpart : partition earns 100 = earns.take 100 :: partition (earns.drop 100) 100 :=
    partition_cons 100 (by norm_num) earns hne
  have hguard : ¬((earns.take 100).length > 100) := by
    rw [List.length_take]
    omega
  have h1 : submitEarnBatchTx oracle 0 (earns.take 100) = (Except.error e, 1) := by
    simp only [submitEarnBatchTx, if_neg hguard, ho]
  constructor
  · intro a ha
    subst ha
    rw [submit_earn_batch_validation_pass app_index memo oracle earns hval, hpart]
    simp only [processBatches, h1, List.length_nil, List.length_map, Nat.zero_add]
    rw [drop_length_take]
  · intro hna
    rw [submit_earn_batch_validation_pass app_index memo oracle earns hval, hpart]
    cases e with
    | agora a => exact absurd rfl (hna a)
    | valueError m => simp only [processBatches, h1]
    | indexError => simp only [processBatches, h1]

/-- Witness for C10: a raised library Error is caught and mapped onto the
sub-batch. -/
theorem submit_earn_batch_exception_catching_witness :
    submit_earn_batch 1 none wOracleRaise [wEarn1, wEarn2]
      = (Except.ok (BatchEarnResult.mk []
          ((([wEarn1, wEarn2].take 100).map fun x => EarnResult.mk x none
              (some (Err.txFailed 3))) ++
           (([wEarn1, wEarn2].drop 100).map fun x => EarnResult.mk x none none))), 1) :=
  (submit_earn_batch_exception_catching 1 none wOracleRaise [wEarn1, wEarn2]
    (Exn.agora (Err.txFailed 3)) (by constructor <;> simp [wEarn1, wEarn2])
    (by decide) (by rfl)).1 (Err.txFailed 3) rfl

theorem nonce_all_retry (m failures : Nat) (h : failures < m) :
    (nonceRetryStrategies m).all
      (fun st => st.shouldRetry (failures + 1) Err.badNonce) = true := by
  simp [nonceRetryStrategies, Strategy.shouldRetry]
  omega

theorem nonce_all_stop (m failures : Nat) (h : m ≤ failures) :
    (nonceRetryStrategies m).all
      (fun st => st.shouldRetry (failures + 1) Err.badNonce) = false := by
  simp [nonceRetryStrategies, Strategy.shouldRetry]
  omega

/-- C5: the coordinator's inner loop retries only on a bad-nonce
whole-transaction error, incrementing the offset by 1 before the retry;
any submission result that is a success or carries any other
transaction-level error terminates the loop and is returned as-is; when
the limit strategy is exhausted the bad-nonce error is surfaced. -/
theorem signAndSubmit_loop_cases (m seq fuel failures offset calls : Nat)
    (transport : Nat → SubmitTransactionResult) :
    (resultBadNonce (transport (seq + offset)) = false →
      retryLoop (nonceRetryStrategies m) (signAndSubmitOnce transport seq) fuel failures
          (offset, calls)
        = (Except.ok (transport (seq + offset)), (offset, calls + 1))) ∧
    (resultBadNonce (transport (seq + offset)) = true → failures < m → ∀ f2, fuel = f2 + 1 →
      retryLoop (nonceRetryStrategies m) (signAndSubmitOnce transport seq) fuel failures
          (offset, calls)
        = retryLoop (nonceRetryStrategies m) (signAndSubmitOnce transport seq) f2 (failures + 1)
            (offset + 1, calls + 1)) ∧
    (resultBadNonce (transport (seq + offset)) = true → m ≤ failures →
      retryLoop (nonceRetryStrategies m) (signAndSubmitOnce transport seq) fuel failures
          (offset, calls)
        = (Except.error Err.badNonce, (offset + 1, calls + 1))) := by
  refine ⟨?_, ?_, ?_⟩
  · intro hbn
    cases hr : (transport (seq + offset)).tx_error with
    | none =>
      cases fuel <;> simp only [retryLoop, signAndSubmitOnce, hr]
    | some te =>
      have hne : ¬(te.tx_error = some Err.badNonce) := by
        simp only [resultBadNonce, hr] at hbn
        exact of_decide_eq_false hbn
      cases fuel <;> simp only [retryLoop, signAndSubmitOnce, hr, if_neg hne]
  · intro hbn hlim f2 hfuel
    subst hfuel
    cases hr : (transport (seq + offset)).tx_error with
    | none =>
      simp only [resultBadNonce, hr] at hbn
      exact Bool.noConfusion hbn
    | some te =>
      have hyes : te.tx_error = some Err.badNonce := by
        simp only [resultBadNonce, hr] at hbn
        exact of_decide_eq_true hbn
      simp only [retryLoop, signAndSubmitOnce, hr, if_pos hyes]
      rw [if_pos (nonce_all_retry m failures hlim)]
  · intro hbn hstop
    have hstop2 : ¬((nonceRetryStrategies m).all
        (fun st => st.shouldRetry (failures + 1) Err.badNonce) = true) := by
      rw [nonce_all_stop m failures hstop]
      simp
    cases hr : (transport (seq + offset)).tx_error with
    | none =>
      simp only [resultBadNonce, hr] at hbn
      exact Bool.noConfusion hbn
    | some te =>
      have hyes : te.tx_error = some Err.badNonce := by
        simp only [resultBadNonce, hr] at hbn
        exact of_decide_eq_true hbn
      cases fuel with
      | zero => simp only [retryLoop, signAndSubmitOnce, hr, if_pos hyes]
      | succ f2 =>
        simp only [retryLoop, signAndSubmitOnce, hr, if_pos hyes, if_neg hstop2]

/-- Witness for C5: a non-bad-nonce result is returned as-is after one
call, whatever the loop state. -/
theorem signAndSubmit_loop_cases_witness :
    retryLoop (nonceRetryStrategies 3) (signAndSubmitOnce wTransport 10) 4 0 (3, 0)
      = (Except.ok (wTransport 13), (3, 1)) :=
  (signAndSubmit_loop_cases 3 10 4 0 3 0 wTransport).1 (by rfl)

theorem retryNonce_success_aux (m : Nat) (transport : Nat → SubmitTransactionResult)
    (seq N : Nat) (hsucc : (transport (seq + (N + 1))).tx_error = none) :
    ∀ (d j calls fuel : Nat), j + d = N → N ≤ m → d < fuel →
      (∀ i, j + 1 ≤ i → i ≤ N → resultBadNonce (transport (seq + i)) = true) →
      retryLoop (nonceRetryStrategies m) (signAndSubmitOnce transport seq) fuel j
          (j + 1, calls)
        = (Except.ok (transport (seq + (N + 1))), (N + 1, calls + d + 1)) := by
  intro d
  induction d with
  | zero =>
    intro j calls fuel hj hN hf hbad
    have hjN : j = N := by omega
    subst hjN
    cases fuel with
    | zero => omega
    | succ f2 => simp only [retryLoop, signAndSubmitOnce, hsucc]
  | succ d ih =>
    intro j calls fuel hj hN hf hbad
    have hb : resultBadNonce (transport (seq + (j + 1))) = true := hbad (j + 1) (by omega) (by omega)
    cases fuel with
    | zero => omega
    | succ f2 =>
      cases hr : (transport (seq + (j + 1))).tx_error with
      | none =>
        simp only [resultBadNonce, hr] at hb
        exact Bool.noConfusion hb
      | some te =>
        have hyes : te.tx_error = some Err.badNonce := by
          simp only [resultBadNonce, hr] at hb
          exact of_decide_eq_true hb
        simp only [retryLoop, signAndSubmitOnce, hr, if_pos hyes]
        rw [if_pos (nonce_all_retry m j (by omega))]
        have harith : calls + 1 + d + 1 = calls + (d + 1) + 1 := by omega
        rw [ih (j + 1) (calls + 1) f2 (by omega) hN (by omega)
          (fun i h1 h2 => hbad i (by omega) h2), harith]

theorem retryNonce_exhaust_aux (m : Nat) (transport : Nat → SubmitTransactionResult)
    (seq : Nat) (hbad : ∀ i, 1 ≤ i → i ≤ m + 1 → resultBadNonce (transport (seq + i)) = true) :
    ∀ (d j calls fuel : Nat), j + d = m → d ≤ fuel →
      retryLoop (nonceRetryStrategies m) (signAndSubmitOnce transport seq) fuel j
          (j + 1, calls)
        = (Except.error Err.badNonce, (j + d + 2, calls + d + 1)) := by
  intro d
  induction d with
  | zero =>
    intro j calls fuel hj hf
    have hjm : j = m := by omega
    have hb : resultBadNonce (transport (seq + (j + 1))) = true :=
      hbad (j + 1) (by omega) (by omega)
    have hstop2 : ¬((nonceRetryStrategies m).all
        (fun st => st.shouldRetry (j + 1) Err.badNonce) = true) := by
      rw [nonce_all_stop m j (by omega)]
      simp
    cases hr : (transport (seq + (j + 1))).tx_error with
    | none =>
      simp only [resultBadNonce, hr] at hb
      exact Bool.noConfusion hb
    | some te =>
      have hyes : te.tx_error = some Err.badNonce := by
        simp only [resultBadNonce, hr] at hb
        exact of_decide_eq_true hb
      cases fuel with
      | zero => simp only [retryLoop, signAndSubmitOnce, hr, if_pos hyes]
      | succ f2 => simp only [retryLoop, signAndSubmitOnce, hr, if_pos hyes, if_neg hstop2]
  | succ d ih =>
    intro j calls fuel hj hf
    have hb : resultBadNonce (transport (seq + (j + 1))) = true :=
      hbad (j + 1) (by omega) (by omega)
    cases fuel with
    | zero => omega
    | succ f2 =>
      cases hr : (transport (seq + (j + 1))).tx_error with
      | none =>
        simp only [resultBadNonce, hr] at hb
        exact Bool.noConfusion hb
      | some te =>
        have hyes : te.tx_error = some Err.badNonce := by
          simp only [resultBadNonce, hr] at hb
          exact of_decide_eq_true hb
        simp only [retryLoop, signAndSubmitOnce, hr, if_pos hyes]
        rw [if_pos (nonce_all_retry m j (by omega))]
        have harith1 : j + 1 + d + 2 = j + (d + 1) + 2 := by omega
        have harith2 : calls + 1 + d + 1 = calls + (d + 1) + 1 := by omega
        rw [ih (j + 1) (calls + 1) f2 (by omega) (by omega), harith1, harith2]

theorem retryNonce_calls_bound (m : Nat) (transport : Nat → SubmitTransactionResult)
    (seq : Nat) :
    ∀ (fuel failures offset calls : Nat),
      (retryLoop (nonceRetryStrategies m) (signAndSubmitOnce transport seq) fuel failures
        (offset, calls)).2.2 ≤ calls + 1 + (m - failures) := by
  intro fuel
  induction fuel with
  | zero =>
    intro failures offset calls
    cases hr : (transport (seq + offset)).tx_error with
    | none => simp only [retryLoop, signAndSubmitOnce, hr]; omega
    | some te =>
      by_cases hbn : te.tx_error = some Err.badNonce
      · simp only [retryLoop, signAndSubmitOnce, hr, if_pos hbn]; omega
      · simp only [retryLoop, signAndSubmitOnce, hr, if_neg hbn]; omega
  | succ f2 ih =>
    intro failures offset calls
    cases hr : (transport (seq + offset)).tx_error with
    | none => simp only [retryLoop, signAndSubmitOnce, hr]; omega
    | some te =>
      by_cases hbn : te.tx_error = some Err.badNonce
      · by_cases hlim : failures < m
        · simp only [retryLoop, signAndSubmitOnce, hr, if_pos hbn,
            if_pos (nonce_all_retry m failures hlim)]
          have := ih (failures + 1) (offset + 1) (calls + 1)
          omega
        · have hstop2 : ¬((nonceRetryStrategies m).all
              (fun st => st.shouldRetry (failures + 1) Err.badNonce) = true) := by
            rw [nonce_all_stop m failures (Nat.le_of_not_lt hlim)]
            simp
          simp only [retryLoop, signAndSubmitOnce, hr, if_pos hbn, if_neg hstop2]
          omega
      · simp only [retryLoop, signAndSubmitOnce, hr, if_neg hbn]; omega

/-- C2: in Client._sign_and_submit_builder, the first attempt uses
sequence fetched + 1; after N consecutive bad-nonce failures with
N at most max_nonce_refreshes, the final successful attempt uses sequence
fetched + N + 1 (final offset N + 1) on the (N+1)-th call; at most
max_nonce_refreshes + 1 submission attempts are ever made; and if every
allowed attempt fails with bad-nonce, the bad-nonce error is surfaced. -/
theorem signAndSubmitBuilder_nonce_behavior (m seq : Nat) :
    (∀ transport : Nat → SubmitTransactionResult,
      (signAndSubmitBuilder m transport seq).2.2 ≤ m + 1) ∧
    (∀ (transport : Nat → SubmitTransactionResult) (N : Nat), N ≤ m →
      (∀ i, 1 ≤ i → i ≤ N → resultBadNonce (transport (seq + i)) = true) →
      (transport (seq + (N + 1))).tx_error = none →
      signAndSubmitBuilder m transport seq
        = (Except.ok (transport (seq + (N + 1))), (N + 1, N + 1))) ∧
    (∀ transport : Nat → SubmitTransactionResult,
      (∀ i, 1 ≤ i → i ≤ m + 1 → resultBadNonce (transport (seq + i)) = true) →
      (signAndSubmitBuilder m transport seq).1 = Except.error Err.badNonce) := by
  refine ⟨?_, ?_, ?_⟩
  · intro transport
    have h := retryNonce_calls_bound m transport seq (m + 1) 0 1 0
    simp only [signAndSubmitBuilder]
    omega
  · intro transport N hN hbad hsucc
    have h := retryNonce_success_aux m transport seq N hsucc N 0 0 (m + 1) (by omega) hN
      (by omega) (fun i h1 h2 => hbad i h1 h2)
    simp only [signAndSubmitBuilder]
    simp only [Nat.zero_add] at h
    exact h
  · intro transport hbad
    have h := retryNonce_exhaust_aux m transport seq hbad m 0 0 (m + 1) (by omega) (by omega)
    simp only [signAndSubmitBuilder, h]

/-- Witness for C2: max_nonce_refreshes 3, fetched sequence 10, bad-nonce
at sequences 11 and 12, success at 13: the final attempt uses
sequence 10 + 3 and three submission attempts are made. -/
theorem signAndSubmitBuilder_nonce_behavior_witness :
    signAndSubmitBuilder 3 wTransport 10 = (Except.ok (wTransport 13), (3, 3)) :=
  (signAndSubmitBuilder_nonce_behavior 3 10).2.1 wTransport 2 (by omega)
    (fun i h1 h2 => by interval_cases i <;> rfl) (by rfl)

/-- C7: every RetryConfig construction succeeds; each field absent or
supplied negative takes its documented default (max_retries 5,
max_nonce_refreshes 3, min_delay 0.5 s, max_delay 10 s); non-negative
supplied values are kept as given. -/
theorem retryConfig_defaults (max_retries : Option Int) (min_delay max_delay : Option Rat)
    (max_nonce_refreshes : Option Int) :
    ((max_retries = none ∨ ∃ v, max_retries = some v ∧ v < 0) →
      (RetryConfig.ofArgs max_retries min_delay max_delay max_nonce_refreshes).max_retries
        = 5) ∧
    (∀ v, max_retries = some v → 0 ≤ v →
      (RetryConfig.ofArgs max_retries min_delay max_delay max_nonce_refreshes).max_retries
        = v) ∧
    ((min_delay = none ∨ ∃ v, min_delay = some v ∧ v < 0) →
      (RetryConfig.ofArgs max_retries min_delay max_delay max_nonce_refreshes).min_delay
        = 1 / 2) ∧
    (∀ v, min_delay = some v → 0 ≤ v →
      (RetryConfig.ofArgs max_retries min_delay max_delay max_nonce_refreshes).min_delay
        = v) ∧
    ((max_delay = none ∨ ∃ v, max_delay = some v ∧ v < 0) →
      (RetryConfig.ofArgs max_retries min_delay max_delay max_nonce_refreshes).max_delay
        = 10) ∧
    (∀ v, max_delay = some v → 0 ≤ v →
      (RetryConfig.ofArgs max_retries min_delay max_delay max_nonce_refreshes).max_delay
        = v) ∧
    ((max_nonce_refreshes = none ∨ ∃ v, max_nonce_refreshes = some v ∧ v < 0) →
      (RetryConfig.ofArgs max_retries min_delay max_delay
        max_nonce_refreshes).max_nonce_refreshes = 3) ∧
    (∀ v, max_nonce_refreshes = some v → 0 ≤ v →
      (RetryConfig.ofArgs max_retries min_delay max_delay
        max_nonce_refreshes).max_nonce_refreshes = v) := by
  refine ⟨?_, ?_, ?_, ?_, ?_, ?_, ?_, ?_⟩
  · rintro (h | ⟨v, hv, hneg⟩) <;> subst_vars
    · rfl
    · simp only [RetryConfig.ofArgs]
      rw [if_neg (not_le.mpr hneg)]
  · intro v hv hge
    subst hv
    simp only [RetryConfig.ofArgs]
    rw [if_pos hge]
  · rintro (h | ⟨v, hv, hneg⟩) <;> subst_vars
    · rfl
    · simp only [RetryConfig.ofArgs]
      rw [if_neg (not_le.mpr hneg)]
  · intro v hv hge
    subst hv
    simp only [RetryConfig.ofArgs]
    rw [if_pos hge]
  · rintro (h | ⟨v, hv, hneg⟩) <;> subst_vars
    · rfl
    · simp only [RetryConfig.ofArgs]
      rw [if_neg (not_le.mpr hneg)]
  · intro v hv hge
    subst hv
    simp only [RetryConfig.ofArgs]
    rw [if_pos hge]
  · rintro (h | ⟨v, hv, hneg⟩) <;> subst_vars
    · rfl
    · simp only [RetryConfig.ofArgs]
      rw [if_neg (not_le.mpr hneg)]
  · intro v hv hge
    subst hv
    simp only [RetryConfig.ofArgs]
    rw [if_pos hge]

/-- Witness for C7: absent max_retries, negative min_delay, non-negative
max_delay and max_nonce_refreshes. -/
theorem retryConfig_defaults_witness :
    (RetryConfig.ofArgs none (some (-1)) (some 3) (some 2)).max_retries = 5 ∧
    (RetryConfig.ofArgs none (some (-1)) (some 3) (some 2)).min_delay = 1 / 2 ∧
    (RetryConfig.ofArgs none (some (-1)) (some 3) (some 2)).max_delay = 3 ∧
    (RetryConfig.ofArgs none (some (-1)) (some 3) (some 2)).max_nonce_refreshes = 2 :=
  ⟨(retryConfig_defaults none (some (-1)) (some 3) (some 2)).1 (Or.inl rfl),
   (retryConfig_defaults none (some (-1)) (some 3) (some 2)).2.2.1
     (Or.inr ⟨-1, rfl, by norm_num⟩),
   (retryConfig_defaults none (some (-1)) (some 3) (some 2)).2.2.2.2.2.1 3 rfl (by norm_num),
   (retryConfig_defaults none (some (-1)) (some 3) (some 2)).2.2.2.2.2.2.2 2 rfl (by norm_num)⟩

theorem handleInvoiceErrors_snd (r : SubmitTransactionResult) (sub : Submission) :
    (handleInvoiceErrors r sub).2 = some sub := by
  cases h : r.invoice_errors with
  | nil => simp [handleInvoiceErrors, h]
  | cons ie rest =>
    cases rest with
    | nil => cases hrea : ie.reason <;> simp [handleInvoiceErrors, h, hrea]
    | cons ie2 rest2 => simp [handleInvoiceErrors, h]

theorem handleSubmitResult_snd (r : SubmitTransactionResult) (sub : Submission) :
    (handleSubmitResult r sub).2 = some sub := by
  cases hte : r.tx_error with
  | none => simp [handleSubmitResult, hte, handleInvoiceErrors_snd]
  | some te =>
    cases hop : te.op_errors with
    | nil =>
      cases htx : te.tx_error with
      | none => simp [handleSubmitResult, hte, hop, htx, handleInvoiceErrors_snd]
      | some e => simp [handleSubmitResult, hte, hop, htx]
    | cons e1 t =>
      cases t with
      | nil => simp [handleSubmitResult, hte, hop]
      | cons e2 t2 => simp [handleSubmitResult, hte, hop]

/-- C8 counterexample: a payment carrying both a free-text memo and an
invoice, with a configured app index, is NOT rejected: the submission
proceeds to the network call, the memo is used verbatim, and no invoice
list is encoded or sent. -/
theorem submit_payment_memo_and_invoice_counterexample :
    submit_payment 1 wPaymentBoth wCleanResult
      = (Except.ok 42, some (Submission.mk (MemoUsed.text "hello") none)) := by rfl

/-- C8 amended: submit_payment rejects before any network call only when
an invoice is present and the app index is not configured; when a truthy
free-text memo is supplied, alone or together with an invoice, the call
is not rejected for that reason, the memo is used verbatim and no invoice
list is encoded or sent. -/
theorem submit_payment_memo_precedence (app_index : Int) (p : Payment)
    (oracle : SubmitTransactionResult) :
    (p.invoice.isSome ∧ app_index ≤ 0 →
      submit_payment app_index p oracle
        = (Except.error
            (Exn.valueError "cannot submit a payment with an invoice without an app index"),
           none)) ∧
    (strTruthy p.memo = true → ¬(p.invoice.isSome ∧ app_index ≤ 0) →
      (submit_payment app_index p oracle).2
        = some (Submission.mk (MemoUsed.text (p.memo.getD "")) none)) := by
  constructor
  · intro h
    simp only [submit_payment, if_pos h]
  · intro hmemo hval
    simp only [submit_payment, if_neg hval, if_pos hmemo]
    exact handleSubmitResult_snd oracle _

/-- Witness for C8 amended: the payment with both memo and invoice is
submitted with the text memo and no invoice list. -/
theorem submit_payment_memo_precedence_witness :
    (submit_payment 1 wPaymentBoth wCleanResult).2
      = some (Submission.mk (MemoUsed.text "hello") none) :=
  (submit_payment_memo_precedence 1 wPaymentBoth wCleanResult).2 (by rfl) (by decide)

/-- C9: when the submission result's transaction-level error carries a
non-empty per-operation error list, the list must have exactly one entry
(otherwise a generic internal Error is raised); the single operation error
is raised; the whole-transaction error and any invoice errors of the same
result are never inspected, whatever their values. -/
theorem submit_payment_op_error_precedence (app_index : Int) (p : Payment)
    (oracle : SubmitTransactionResult) (te : TransactionError)
    (hval : ¬(p.invoice.isSome ∧ app_index ≤ 0)) (hte : oracle.tx_error = some te) :
    (∀ e, te.op_errors = [e] →
      (submit_payment app_index p oracle).1 = Except.error (Exn.agora e)) ∧
    (2 ≤ te.op_errors.length →
      (submit_payment app_index p oracle).1
        = Except.error
            (Exn.agora (Err.internal "invalid number of operation errors, expected 0 or 1"))) := by
  constructor
  · intro e hop
    simp only [submit_payment, if_neg hval, handleSubmitResult, hte, hop]
  · intro hlen
    cases hop : te.op_errors with
    | nil => rw [hop] at hlen; simp at hlen
    | cons e1 t =>
      cases t with
      | nil => rw [hop] at hlen; simp at hlen
      | cons e2 t2 => simp only [submit_payment, if_neg hval, handleSubmitResult, hte, hop]

/-- Witness for C9: a result with one operation error, a whole-transaction
error AND an invoice error raises exactly the operation error. -/
theorem submit_payment_op_error_precedence_witness :
    (submit_payment 1 wPaymentBoth wOpErrResult).1 = Except.error (Exn.agora (Err.txFailed 5)) :=
  (submit_payment_op_error_precedence 1 wPaymentBoth wOpErrResult
    (TransactionError.mk (some (Err.txFailed 8)) [Err.txFailed 5]) (by decide) (by rfl)).1
    (Err.txFailed 5) rfl

end KinClient
